import Mathlib

/-!
Shallow embedding of the easyspec structural-validation engine
(`src/index.ts`): the validation-summary utilities, the pre-check phase,
the per-rule evaluation loop with exception-to-message conversion, the
recursive `Validate` traversal, and the `Extend` spec composer.

JavaScript runtime values are modelled by `JSVal`; predicates and
message factories that may throw are modelled as functions into
`Except JSVal`, the error payload being the thrown value.  The
recursive traversal is written with an explicit fuel parameter (any
fuel larger than the size of the spec tree is sufficient, see
`validateFuel_congr`), which keeps every definition executable by the
kernel.
-/

/-- JavaScript runtime values, as far as the validator observes them.
Arrays and plain objects are kept structurally; other primitives are
leaves.  `undef` models `undefined`. -/
inductive JSVal : Type where
  | undef : JSVal
  | null : JSVal
  | bool : Bool → JSVal
  | num : Int → JSVal
  | str : String → JSVal
  | arr : List JSVal → JSVal
  | obj : List (String × JSVal) → JSVal

/-- Model of `Exists` from fp-way-core: true iff the value is neither `null` nor
`undefined`. -/
def existsVal : JSVal → Bool
  | JSVal.undef => false
  | JSVal.null => false
  | _ => true

/-- Model of `IsOfType('object', v)`: true only for plain (non-array, non-null)
objects. -/
def isObjectVal : JSVal → Bool
  | JSVal.obj _ => true
  | _ => false

/-- Model of `obj.Entries(o)` for the values traversed by the validator (only
ever applied to structural objects; returns the own enumerable
key-value pairs in insertion order). -/
def objEntries : JSVal → List (String × JSVal)
  | JSVal.obj fields => fields
  | _ => []

/-- Property access `o[k]`: `undefined` when the key is absent. -/
def getProp (o : JSVal) (k : String) : JSVal :=
  ((objEntries o).lookup k).getD JSVal.undef

/-- The `ValidationException` record handed to the configured
`errorHandler` (src/index.ts lines 54-59). -/
structure ValidationException where
  key : String
  value : JSVal
  ruleIndex : Nat
  error : JSVal

/-- The `ValidationSummary` record (src/index.ts lines 47-53).  The
`errors` map is kept as a JavaScript object: an insertion-ordered
association list with unique keys. -/
structure ValidationSummary where
  valid : Bool
  errorCount : Nat
  missingProperties : List String
  redundantProperties : List String
  errors : List (String × List String)
deriving DecidableEq

/-- Source function `_ValidationSummary.New` (src/index.ts lines 17-25). -/
def ValidationSummary.New : ValidationSummary :=
  { valid := true
    errorCount := 0
    missingProperties := []
    redundantProperties := []
    errors := [] }

/-- Source function `_ValidationSummary.incErrCount` (src/index.ts lines 5-8). -/
def ValidationSummary.incErrCount (s : ValidationSummary) : ValidationSummary :=
  { s with errorCount := s.errorCount + 1, valid := false }

/-- The mutation `summary.errors[k].push(msg)` / `summary.errors[k] = [msg]`
performed by `_ValidationSummary.addErr`: appending to the entry when the
key is already present, appending a fresh singleton entry otherwise
(JavaScript object-assignment semantics). -/
def pushErr : List (String × List String) → String → String → List (String × List String)
  | [], k, msg => [(k, [msg])]
  | (k2, msgs) :: rest, k, msg =>
    if k2 == k then (k2, msgs ++ [msg]) :: rest else (k2, msgs) :: pushErr rest k msg

/-- Source function `_ValidationSummary.addErr` (src/index.ts lines 9-16). -/
def ValidationSummary.addErr (k : String) (msg : String) (summary : ValidationSummary) :
    ValidationSummary :=
  ValidationSummary.incErrCount { summary with errors := pushErr summary.errors k msg }

/-- Model of `Object.fromEntries` assignment semantics on the errors map: each
entry is assigned in order; assigning an existing key updates it in
place, a new key is appended. -/
def setEntry : List (String × List String) → String → List String → List (String × List String)
  | [], k, v => [(k, v)]
  | (k2, v2) :: rest, k, v =>
    if k2 == k then (k2, v) :: rest else (k2, v2) :: setEntry rest k v

/-- Model of `obj.FromEntries` on error-map entries. -/
def fromEntries (entries : List (String × List String)) : List (String × List String) :=
  entries.foldl (fun acc kv => setEntry acc kv.1 kv.2) []

/-- Source function `_ValidationSummary.mergeNestedSummary` (src/index.ts lines 26-45). -/
def ValidationSummary.mergeNestedSummary (summary : ValidationSummary) (key : String)
    (nestedSummary : ValidationSummary) : ValidationSummary :=
  let prependKey := fun (v : String) => key ++ "." ++ v
  let nestedErrors := nestedSummary.errors.map (fun kv => (prependKey kv.1, kv.2))
  { valid := nestedSummary.valid && summary.valid
    errorCount := summary.errorCount + nestedSummary.errorCount
    missingProperties :=
      summary.missingProperties ++ nestedSummary.missingProperties.map prependKey
    redundantProperties :=
      summary.redundantProperties ++ nestedSummary.redundantProperties.map prependKey
    errors := fromEntries (summary.errors ++ nestedErrors) }

/-- Caller-supplied `ValidationOptions` (src/index.ts lines 60-66): every
field optional.  `omitKeys` is the extra field of `ExtentionOptions`
(lines 67-70); it is carried here because in JavaScript it lives on the
same untyped options object and `Extend` must read and delete it. -/
structure ValidationOptions where
  stopAfterInvalid : Option Bool := none
  errorHandler : Option (ValidationException → String) := none
  redundantIsError : Option Bool := none
  optionalProps : Option (List String) := none
  isOptional : Option Bool := none
  omitKeys : Option (List String) := none

/-- Source type `PopulatedValidationOptions` (src/index.ts line 71): all fields
resolved. -/
structure PopulatedValidationOptions where
  stopAfterInvalid : Bool
  errorHandler : ValidationException → String
  redundantIsError : Bool
  optionalProps : List String
  isOptional : Bool

/-- Source value `_defaultValidationOptions` (src/index.ts lines 73-79). -/
def defaultValidationOptions : PopulatedValidationOptions :=
  { optionalProps := []
    redundantIsError := true
    stopAfterInvalid := false
    errorHandler := fun e =>
      "Error while validating property \"" ++ e.key ++ "\" at rule index " ++ toString e.ruleIndex
    isOptional := false }

/-- Model of `obj.WithDefault(defaults, overrides)`: shallow right-biased merge,
declared fields win, unset fields fall back to the defaults. -/
def withDefault (d : PopulatedValidationOptions) (o : ValidationOptions) :
    PopulatedValidationOptions :=
  { stopAfterInvalid := o.stopAfterInvalid.getD d.stopAfterInvalid
    errorHandler := o.errorHandler.getD d.errorHandler
    redundantIsError := o.redundantIsError.getD d.redundantIsError
    optionalProps := o.optionalProps.getD d.optionalProps
    isOptional := o.isOptional.getD d.isOptional }

/-- Resolution of the options at the start of a `Validate` call
(src/index.ts lines 146-149): `WithDefault(_defaultValidationOptions,
spec[ValidationOptionsSym] ?? {})`. -/
def resolveOptions (specOptions : Option ValidationOptions) : PopulatedValidationOptions :=
  withDefault defaultValidationOptions (specOptions.getD {})

/-- Source type `ValidationPropertyRule` (src/index.ts lines 80-83): a (predicate,
message-factory) pair over (value, key, owning object); either component
may throw. -/
abbrev ValidationPropertyRule : Type :=
  (JSVal → String → JSVal → Except JSVal Bool) × (JSVal → String → JSVal → Except JSVal String)

mutual
/-- Source type `ValidationSpec` (src/index.ts lines 84-88): an ordered property map
whose values are rule lists or nested specs, plus the options slot
(keyed in JavaScript by the reserved `ValidationOptionsSym` symbol, so
it is invisible to `obj.Keys`/`obj.Entries`; here it is a separate
field). -/
inductive ValidationSpec : Type where
  | mk : List (String × SpecEntry) → Option ValidationOptions → ValidationSpec

/-- One property's entry in a `ValidationSpec`: a rule list (the
`IsOfType('array', keySpec)` branch) or a nested spec. -/
inductive SpecEntry : Type where
  | rules : List ValidationPropertyRule → SpecEntry
  | nested : ValidationSpec → SpecEntry
end

/-- The property map of a spec. -/
def ValidationSpec.props : ValidationSpec → List (String × SpecEntry)
  | ValidationSpec.mk ps _ => ps

/-- The raw options slot of a spec. -/
def ValidationSpec.options : ValidationSpec → Option ValidationOptions
  | ValidationSpec.mk _ o => o

/-- Source type `_CheckPropsResult` (src/index.ts lines 100-104). -/
structure CheckPropsResult where
  missing : List String
  redundant : List String
  propsToCheck : List String
deriving DecidableEq

/-- Source function `_validationPreCheckProps` (src/index.ts lines 105-126). -/
def validationPreCheckProps (declaredPropsToCheck : List String)
    (options : PopulatedValidationOptions) (o : JSVal) : CheckPropsResult :=
  let optionalProps := options.optionalProps
  let requiredProps := declaredPropsToCheck.filter (fun d => !(optionalProps.contains d))
  let presentProps := ((objEntries o).filter (fun kv => existsVal kv.2)).map Prod.fst
  let missingRequiredProps := requiredProps.filter (fun r => !(presentProps.contains r))
  let redundantProps := presentProps.filter (fun p => !(declaredPropsToCheck.contains p))
  let propsToCheck := presentProps.filter (fun p => declaredPropsToCheck.contains p)
  { missing := missingRequiredProps
    propsToCheck := propsToCheck
    redundant := redundantProps }

/-- The raw `spec?.[ValidationOptionsSym]?.isOptional` access of the
non-object guard (src/index.ts line 140), evaluated before options are
resolved. -/
def rawIsOptional (specOptions : Option ValidationOptions) : Bool :=
  match specOptions with
  | some opts => opts.isOptional.getD false
  | none => false

/-- One `try { ... } catch(e) { ... }` block of the rule loop
(src/index.ts lines 176-185): run the predicate; on `false` run the
message factory and record its message; a throw from either is converted
through `options.errorHandler` (note: the source passes the enclosing
`propsToCheck` loop counter `i` as `ruleIndex`). -/
def evalRule (options : PopulatedValidationOptions) (o : JSVal) (ptc : String) (value : JSVal)
    (i : Nat) (summary : ValidationSummary) (rule : ValidationPropertyRule) : ValidationSummary :=
  match rule.1 value ptc o with
  | Except.error e =>
    ValidationSummary.addErr ptc
      (options.errorHandler { key := ptc, value := value, ruleIndex := i, error := e }) summary
  | Except.ok rulePass =>
    if rulePass then summary
    else
      match rule.2 value ptc o with
      | Except.error e =>
        ValidationSummary.addErr ptc
          (options.errorHandler { key := ptc, value := value, ruleIndex := i, error := e }) summary
      | Except.ok message => ValidationSummary.addErr ptc message summary

/-- The missing/redundant recording phase (src/index.ts lines 154-163). -/
def recordPreCheck (options : PopulatedValidationOptions) (pcr : CheckPropsResult)
    (summary : ValidationSummary) : ValidationSummary :=
  let s1 :=
    if pcr.missing.isEmpty then summary
    else { ValidationSummary.incErrCount summary with missingProperties := pcr.missing }
  if pcr.redundant.isEmpty then s1
  else
    let s2 := { s1 with redundantProperties := pcr.redundant }
    if options.redundantIsError then ValidationSummary.incErrCount s2 else s2

/-- The `for(let i = 0; ...)` loop over `propsToCheck`
(src/index.ts lines 165-191), parameterised by the recursive call used
for nested specs.  The `none` lookup branch is unreachable in every use:
`propsToCheck` is a subset of the declared keys. -/
def validatePropsLoop (recurse : ValidationSpec → JSVal → ValidationSummary)
    (props : List (String × SpecEntry)) (options : PopulatedValidationOptions) (o : JSVal) :
    Nat → List String → ValidationSummary → ValidationSummary
  | _, [], summary => summary
  | i, ptc :: rest, summary =>
    if options.stopAfterInvalid && !summary.valid then summary
    else
      let value := getProp o ptc
      let summary2 :=
        match props.lookup ptc with
        | some (SpecEntry.rules rs) => rs.foldl (evalRule options o ptc value i) summary
        | some (SpecEntry.nested keySpec) =>
          ValidationSummary.mergeNestedSummary summary ptc (recurse keySpec value)
        | none => summary
      validatePropsLoop recurse props options o (i + 1) rest summary2

mutual
/-- Size of a spec tree, used as recursion fuel for `Validate`. -/
def specSize : ValidationSpec → Nat
  | ValidationSpec.mk props _ => propsSize props + 1

/-- Size of a spec property map. -/
def propsSize : List (String × SpecEntry) → Nat
  | [] => 0
  | (_, e) :: rest => entrySize e + propsSize rest + 1

/-- Size of one spec entry. -/
def entrySize : SpecEntry → Nat
  | SpecEntry.rules _ => 0
  | SpecEntry.nested s => specSize s + 1
end

/-- Source function `Validate` (src/index.ts lines 137-194), with an explicit fuel for
the nested recursion.  Fuel `0` is never reached when starting from
`specSize spec` (nested specs are strictly smaller); its value is the
fresh summary. -/
def validateFuel : Nat → ValidationSpec → JSVal → ValidationSummary
  | 0, _, _ => ValidationSummary.New
  | fuel + 1, ValidationSpec.mk props specOptions, o =>
    let summary := ValidationSummary.New
    if !(isObjectVal o) then
      if !(rawIsOptional specOptions) || existsVal o then
        ValidationSummary.addErr "_self" "Value must be an object" summary
      else summary
    else
      let options := resolveOptions specOptions
      let pcr := validationPreCheckProps (props.map Prod.fst) options o
      validatePropsLoop (validateFuel fuel) props options o 0 pcr.propsToCheck
        (recordPreCheck options pcr summary)

/-- Source entry point `Validate(spec, o)` (src/index.ts lines 128-194). -/
def Validate (spec : ValidationSpec) (o : JSVal) : ValidationSummary :=
  validateFuel (specSize spec) spec o

/-- Model of the spread `{...parent, ...ext}` on the property maps: parent entries in order,
overridden by the extension where the key collides, extension-only
entries appended. -/
def imposeProps (ext parent : List (String × SpecEntry)) : List (String × SpecEntry) :=
  parent.map (fun kv => (kv.1, (ext.lookup kv.1).getD kv.2))
  ++ ext.filter (fun kv => (parent.lookup kv.1).isNone)

/-- Model of `obj.Impose` on two options objects: field-wise, the first argument
wins, the second fills the gaps. -/
def imposeOptions (a b : ValidationOptions) : ValidationOptions :=
  { stopAfterInvalid := a.stopAfterInvalid.orElse (fun _ => b.stopAfterInvalid)
    errorHandler := a.errorHandler.orElse (fun _ => b.errorHandler)
    redundantIsError := a.redundantIsError.orElse (fun _ => b.redundantIsError)
    optionalProps := a.optionalProps.orElse (fun _ => b.optionalProps)
    isOptional := a.isOptional.orElse (fun _ => b.isOptional)
    omitKeys := a.omitKeys.orElse (fun _ => b.omitKeys) }

/-- Source function `Extend` (src/index.ts lines 195-219): impose the extension spec on
the parent spec and the extension options on the parent options, delete
every property named in the merged `omitKeys`, strip `omitKeys` from the
options, and attach them. -/
def Extend (extSpec parentSpec : ValidationSpec) : ValidationSpec :=
  match extSpec, parentSpec with
  | ValidationSpec.mk extProps extOptions, ValidationSpec.mk parentProps parentOptions =>
    let newProps := imposeProps extProps parentProps
    let newOptions := imposeOptions (extOptions.getD {}) (parentOptions.getD {})
    let omitted := newOptions.omitKeys.getD []
    let prunedProps := newProps.filter (fun kv => !(omitted.contains kv.1))
    ValidationSpec.mk prunedProps (some { newOptions with omitKeys := none })

/-- The coherence invariant of a summary: the error count is zero
exactly when the summary is still valid. -/
def countValidCoherent (s : ValidationSummary) : Prop :=
  s.errorCount = 0 ↔ s.valid = true

/-- Replace a rule by one that behaves identically on existing values
and arbitrarily (per `q`, `qm`) on absent (null/undefined) values. -/
def maskRule (q : JSVal → String → JSVal → Except JSVal Bool)
    (qm : JSVal → String → JSVal → Except JSVal String) (r : ValidationPropertyRule) :
    ValidationPropertyRule :=
  (fun v k o => if existsVal v then r.1 v k o else q v k o,
   fun v k o => if existsVal v then r.2 v k o else qm v k o)

mutual
/-- Transformation `maskRule` applied throughout a spec tree. -/
def maskSpec (q : JSVal → String → JSVal → Except JSVal Bool)
    (qm : JSVal → String → JSVal → Except JSVal String) : ValidationSpec → ValidationSpec
  | ValidationSpec.mk props opts => ValidationSpec.mk (maskProps q qm props) opts

/-- Transformation `maskRule` applied throughout a property map. -/
def maskProps (q : JSVal → String → JSVal → Except JSVal Bool)
    (qm : JSVal → String → JSVal → Except JSVal String) :
    List (String × SpecEntry) → List (String × SpecEntry)
  | [] => []
  | (k, e) :: rest => (k, maskEntry q qm e) :: maskProps q qm rest

/-- Transformation `maskRule` applied throughout one spec entry. -/
def maskEntry (q : JSVal → String → JSVal → Except JSVal Bool)
    (qm : JSVal → String → JSVal → Except JSVal String) : SpecEntry → SpecEntry
  | SpecEntry.rules rs => SpecEntry.rules (rs.map (maskRule q qm))
  | SpecEntry.nested s => SpecEntry.nested (maskSpec q qm s)
end

/-- Well-formed JavaScript values: every object level has pairwise
distinct keys (guaranteed by the JavaScript runtime). -/
inductive WFVal : JSVal → Prop where
  | undef : WFVal JSVal.undef
  | null : WFVal JSVal.null
  | bool (b : Bool) : WFVal (JSVal.bool b)
  | num (n : Int) : WFVal (JSVal.num n)
  | str (s : String) : WFVal (JSVal.str s)
  | arr (xs : List JSVal) : WFVal (JSVal.arr xs)
  | obj (fields : List (String × JSVal)) (hkeys : (fields.map Prod.fst).Nodup)
      (hvals : ∀ kv ∈ fields, WFVal kv.2) : WFVal (JSVal.obj fields)

def stopOptionsW : PopulatedValidationOptions :=
  { defaultValidationOptions with stopAfterInvalid := true }

def invalidSummaryW : ValidationSummary :=
  ValidationSummary.addErr "_self" "boom" ValidationSummary.New

/-- A spec with a single property "a" whose rule list has a passing
rule at index 0 and a throwing rule at index 1. -/
def ruleIndexProbeSpec : ValidationSpec :=
  ValidationSpec.mk
    [("a", SpecEntry.rules
      [ (fun _ _ _ => Except.ok true, fun _ _ _ => Except.ok "unused"),
        (fun _ _ _ => Except.error (JSVal.str "boom"), fun _ _ _ => Except.ok "unused") ])]
    none

/-- The object `{a: 1}`: property "a" sits at index 0 of propsToCheck. -/
def ruleIndexProbeObj : JSVal := JSVal.obj [("a", JSVal.num 1)]

/-- Witness fixture: a parent summary with one recorded error. -/
def mergeParentW : ValidationSummary :=
  { valid := false, errorCount := 1, missingProperties := ["m"], redundantProperties := ["r"],
    errors := [("age", ["age must be a number"])] }

/-- Witness fixture: a child summary with a self-key error and a
property error. -/
def mergeChildW : ValidationSummary :=
  { valid := false, errorCount := 2, missingProperties := ["cm"], redundantProperties := [],
    errors := [("_self", ["child broke"]), ("name", ["bad name"])] }

/-- Witness fixture: a rule whose predicate throws. -/
def throwRuleW : ValidationPropertyRule :=
  (fun _ _ _ => Except.error (JSVal.str "boom"), fun _ _ _ => Except.ok "unused")

/-- Witness fixture: a spec declaring one required property "a". -/
def requiredOnlyProps : List (String × SpecEntry) := [("a", SpecEntry.rules [])]

/-- Witness fixture: extension property map for `Extend`. -/
def extProbeProps : List (String × SpecEntry) := [("city", SpecEntry.rules [])]

/-- Witness fixture: parent property map for `Extend`. -/
def parentProbeProps : List (String × SpecEntry) :=
  [("name", SpecEntry.rules []), ("area", SpecEntry.rules [])]

/-- Witness fixture: extension options omitting "name" and declaring no
optional properties. -/
def extProbeOptions : ValidationOptions :=
  { optionalProps := some [], omitKeys := some ["name"] }

/-- Witness fixture: a one-rule spec for the masking theorem. -/
def maskProbeSpec : ValidationSpec :=
  ValidationSpec.mk
    [("a", SpecEntry.rules
      [ (fun v _ _ => Except.ok (existsVal v), fun _ _ _ => Except.ok "a is absent") ])]
    none

/-- Witness fixture: alternative predicate behaviour on absent values. -/
def maskProbeQ : JSVal → String → JSVal → Except JSVal Bool :=
  fun _ _ _ => Except.error JSVal.null

/-- Witness fixture: alternative message behaviour on absent values. -/
def maskProbeQm : JSVal → String → JSVal → Except JSVal String :=
  fun _ _ _ => Except.ok "never shown"

/-- Witness fixture: the object `{a: 1}`. -/
def maskProbeObj : JSVal := JSVal.obj [("a", JSVal.num 1)]

theorem lookup_mem {α : Type} {l : List (String × α)} {k : String} {v : α}
    (h : l.lookup k = some v) : (k, v) ∈ l := by
  induction l with
  | nil => simp [List.lookup] at h
  | cons kv rest ih =>
    rcases kv with ⟨k2, v2⟩
    rw [List.lookup] at h
    by_cases hk : k = k2
    · subst hk
      simp only [beq_self_eq_true] at h
      simp only [Option.some.injEq] at h
      subst h
      exact List.mem_cons_self _ _
    · have hb : (k == k2) = false := by simp [hk]
      simp only [hb] at h
      exact List.mem_cons_of_mem _ (ih h)

theorem lookup_filter_omitted {α : Type} {omitted : List String} {k : String}
    (homit : omitted.contains k = true) :
    ∀ l : List (String × α), (l.filter (fun kv => !(omitted.contains kv.1))).lookup k = none := by
  intro l
  induction l with
  | nil => simp [List.lookup]
  | cons kv rest ih =>
    rcases kv with ⟨k2, v2⟩
    rw [List.filter_cons]
    by_cases hm2 : omitted.contains k2
    · simp only [hm2, Bool.not_true, Bool.false_eq_true, if_false]
      exact ih
    · have hm2f : omitted.contains k2 = false := by simpa using hm2
      have hk : ¬(k = k2) := by
        intro he
        rw [he, hm2f] at homit
        exact Bool.false_ne_true homit
      have hb : (k == k2) = false := by simp [hk]
      simp only [hm2f, Bool.not_false, if_true]
      rw [List.lookup]
      simp only [hb]
      exact ih

theorem lookup_filter_kept {α : Type} {omitted : List String} {k : String}
    (homit : omitted.contains k = false) :
    ∀ l : List (String × α),
      (l.filter (fun kv => !(omitted.contains kv.1))).lookup k = l.lookup k := by
  intro l
  induction l with
  | nil => simp
  | cons kv rest ih =>
    rcases kv with ⟨k2, v2⟩
    rw [List.filter_cons]
    by_cases hm2 : omitted.contains k2
    · have hk : ¬(k = k2) := by
        intro he
        rw [he, hm2] at homit
        simp at homit
      have hb : (k == k2) = false := by simp [hk]
      simp only [hm2, Bool.not_true, Bool.false_eq_true, if_false]
      rw [ih]
      conv_rhs => rw [List.lookup]
      simp only [hb]
    · have hm2f : omitted.contains k2 = false := by simpa using hm2
      simp only [hm2f, Bool.not_false, if_true]
      rw [List.lookup]
      conv_rhs => rw [List.lookup]
      by_cases hk : k = k2
      · subst hk
        simp only [beq_self_eq_true]
      · have hb : (k == k2) = false := by simp [hk]
        simp only [hb]
        exact ih

theorem addErr_valid (k msg : String) (s : ValidationSummary) :
    (ValidationSummary.addErr k msg s).valid = false := rfl

theorem addErr_errorCount (k msg : String) (s : ValidationSummary) :
    (ValidationSummary.addErr k msg s).errorCount = s.errorCount + 1 := rfl

theorem addErr_missing (k msg : String) (s : ValidationSummary) :
    (ValidationSummary.addErr k msg s).missingProperties = s.missingProperties := rfl

theorem addErr_redundant (k msg : String) (s : ValidationSummary) :
    (ValidationSummary.addErr k msg s).redundantProperties = s.redundantProperties := rfl

theorem coherent_New : countValidCoherent ValidationSummary.New := by
  simp [countValidCoherent, ValidationSummary.New]

theorem coherent_incErrCount (s : ValidationSummary) :
    countValidCoherent (ValidationSummary.incErrCount s) := by
  simp [countValidCoherent, ValidationSummary.incErrCount]

theorem coherent_addErr (k msg : String) (s : ValidationSummary) :
    countValidCoherent (ValidationSummary.addErr k msg s) := by
  simp [countValidCoherent, ValidationSummary.addErr, ValidationSummary.incErrCount]

theorem coherent_merge {s c : ValidationSummary} (k : String)
    (hs : countValidCoherent s) (hc : countValidCoherent c) :
    countValidCoherent (ValidationSummary.mergeNestedSummary s k c) := by
  unfold countValidCoherent at *
  show s.errorCount + c.errorCount = 0 ↔ (c.valid && s.valid) = true
  constructor
  · intro h
    have h1 : s.errorCount = 0 := by omega
    have h2 : c.errorCount = 0 := by omega
    simp [hc.mp h2, hs.mp h1]
  · intro h
    simp only [Bool.and_eq_true] at h
    have e1 := hs.mpr h.2
    have e2 := hc.mpr h.1
    omega

theorem coherent_evalRule (options : PopulatedValidationOptions) (o : JSVal) (ptc : String)
    (value : JSVal) (i : Nat) {s : ValidationSummary} (rule : ValidationPropertyRule)
    (hs : countValidCoherent s) :
    countValidCoherent (evalRule options o ptc value i s rule) := by
  rw [evalRule]
  rcases rule.1 value ptc o with e | b
  · exact coherent_addErr _ _ _
  · rcases b with _ | _
    · simp only [Bool.false_eq_true, if_false]
      rcases rule.2 value ptc o with e | msg
      · exact coherent_addErr _ _ _
      · exact coherent_addErr _ _ _
    · simpa

theorem coherent_foldl (options : PopulatedValidationOptions) (o : JSVal) (ptc : String)
    (value : JSVal) (i : Nat) (rules : List ValidationPropertyRule) :
    ∀ {s : ValidationSummary}, countValidCoherent s →
      countValidCoherent (rules.foldl (evalRule options o ptc value i) s) := by
  induction rules with
  | nil => intro s hs; simpa
  | cons r rest ih =>
    intro s hs
    rw [List.foldl_cons]
    exact ih (coherent_evalRule options o ptc value i r hs)

theorem coherent_recordPreCheck (options : PopulatedValidationOptions) (pcr : CheckPropsResult)
    {s : ValidationSummary} (hs : countValidCoherent s) :
    countValidCoherent (recordPreCheck options pcr s) := by
  unfold recordPreCheck
  split_ifs <;>
    first
      | exact hs
      | simpa [countValidCoherent] using hs
      | simp [countValidCoherent, ValidationSummary.incErrCount]

theorem coherent_loop (recurse : ValidationSpec → JSVal → ValidationSummary)
    (props : List (String × SpecEntry)) (options : PopulatedValidationOptions) (o : JSVal)
    (hrec : ∀ sp v, countValidCoherent (recurse sp v)) :
    ∀ (ptcs : List String) (i : Nat) {s : ValidationSummary}, countValidCoherent s →
      countValidCoherent (validatePropsLoop recurse props options o i ptcs s) := by
  intro ptcs
  induction ptcs with
  | nil => intro i s hs; simpa [validatePropsLoop]
  | cons ptc rest ih =>
    intro i s hs
    rw [validatePropsLoop]
    split
    · exact hs
    · apply ih
      rcases props.lookup ptc with _ | entry
    
      · simpa using hs
      · rcases entry with rs | keySpec
        · exact coherent_foldl options o ptc (getProp o ptc) i rs hs
        · exact coherent_merge ptc hs (hrec keySpec (getProp o ptc))

theorem coherent_validateFuel : ∀ (fuel : Nat) (spec : ValidationSpec) (o : JSVal),
    countValidCoherent (validateFuel fuel spec o) := by
  intro fuel
  induction fuel with
  | zero => intro spec o; exact coherent_New
  | succ fuel ih =>
    intro spec o
    rcases spec with ⟨props, specOptions⟩
    rw [validateFuel]
    split
    · split
      · exact coherent_addErr _ _ _
      · exact coherent_New
    · exact coherent_loop _ _ _ _ (fun sp v => ih sp v) _ _
        (coherent_recordPreCheck _ _ coherent_New)

/-- Claim C3: for every Spec and every value, the Summary returned by
Validate satisfies: errorCount == 0 if and only if valid == true. -/
theorem validate_errorCount_zero_iff_valid (spec : ValidationSpec) (o : JSVal) :
    (Validate spec o).errorCount = 0 ↔ (Validate spec o).valid = true :=
  coherent_validateFuel (specSize spec) spec o

/-- Claim C8: when stopAfterInvalid is set and the summary is already
invalid before a property of propsToCheck is processed, the property
loop returns the summary immediately: the result is the unchanged
summary, for every remaining property list and for every recursion
function (so no rule runs, no nested recursion happens and no further
error is recorded). -/
theorem validatePropsLoop_stop (recurse : ValidationSpec → JSVal → ValidationSummary)
    (props : List (String × SpecEntry)) (options : PopulatedValidationOptions) (o : JSVal)
    (i : Nat) (ptcs : List String) (summary : ValidationSummary)
    (hstop : options.stopAfterInvalid = true) (hinvalid : summary.valid = false) :
    validatePropsLoop recurse props options o i ptcs summary = summary := by
  cases ptcs with
  | nil => rw [validatePropsLoop]
  | cons ptc rest =>
    rw [validatePropsLoop]
    simp [hstop, hinvalid]

theorem validatePropsLoop_stop_witness :
    stopOptionsW.stopAfterInvalid = true ∧ invalidSummaryW.valid = false ∧
    validatePropsLoop (fun _ _ => ValidationSummary.New) [("a", SpecEntry.rules [])]
        stopOptionsW (JSVal.obj [("a", JSVal.num 1)]) 0 ["a"] invalidSummaryW
      = invalidSummaryW :=
  ⟨rfl, rfl, validatePropsLoop_stop _ _ _ _ _ _ _ rfl rfl⟩

theorem setEntry_not_mem {acc : List (String × List String)} {k : String} {v : List String}
    (h : ¬ k ∈ acc.map Prod.fst) : setEntry acc k v = acc ++ [(k, v)] := by
  induction acc with
  | nil => rfl
  | cons kv rest ih =>
    rcases kv with ⟨k2, v2⟩
    simp only [List.map_cons, List.mem_cons] at h
    push_neg at h
    rw [setEntry]
    have hb : (k2 == k) = false := by simp [Ne.symm h.1]
    simp only [hb, Bool.false_eq_true, if_false]
    rw [ih h.2]
    simp

theorem foldl_setEntry_append :
    ∀ (es acc : List (String × List String)), ((acc ++ es).map Prod.fst).Nodup →
      es.foldl (fun a kv => setEntry a kv.1 kv.2) acc = acc ++ es := by
  intro es
  induction es with
  | nil => intro acc h; simp
  | cons kv rest ih =>
    intro acc h
    rw [List.foldl_cons]
    have hk : ¬ kv.1 ∈ acc.map Prod.fst := by
      intro hmem
      rw [List.map_append, List.nodup_append] at h
      exact h.2.2 hmem (by simp)
    rw [setEntry_not_mem hk]
    have h2 : (((acc ++ [kv]) ++ rest).map Prod.fst).Nodup := by
      simpa using h
    have := ih (acc ++ [kv]) h2
    simpa using this

theorem fromEntries_eq_self {es : List (String × List String)}
    (h : (es.map Prod.fst).Nodup) : fromEntries es = es := by
  have := foldl_setEntry_append es [] (by simpa using h)
  simpa [fromEntries] using this

theorem dot_self_append (a : String) : (a ++ ".") ++ "_self" = a ++ "._self" := by
  rw [String.append_assoc]
  rfl

/-- Claim C2: merging a child Summary (as produced by a nested
`Validate` call) into a parent under property key `key` appends every
entry of the child's missingProperties and redundantProperties to the
parent's corresponding list prefixed with `key ++ "."`, copies every
entry of the child's errors into the parent's errors under the prefixed
key (so the reserved self-key becomes `key ++ "._self"`) preserving
message order, sets valid to the conjunction of the two valid flags,
and adds the child's errorCount to the parent's.  The no-collision
hypothesis mirrors the claim's own remark that prefixed child keys
cannot collide. -/
theorem mergeNestedSummary_spec (summary : ValidationSummary) (key : String)
    (nested : ValidationSummary)
    (hnd : ((summary.errors ++ nested.errors.map
        (fun kv => (key ++ "." ++ kv.1, kv.2))).map Prod.fst).Nodup) :
    (ValidationSummary.mergeNestedSummary summary key nested).missingProperties
        = summary.missingProperties ++ nested.missingProperties.map (fun v => key ++ "." ++ v)
    ∧ (ValidationSummary.mergeNestedSummary summary key nested).redundantProperties
        = summary.redundantProperties ++ nested.redundantProperties.map (fun v => key ++ "." ++ v)
    ∧ (ValidationSummary.mergeNestedSummary summary key nested).errors
        = summary.errors ++ nested.errors.map (fun kv => (key ++ "." ++ kv.1, kv.2))
    ∧ (∀ ck msgs, (ck, msgs) ∈ nested.errors →
        (key ++ "." ++ ck, msgs) ∈ (ValidationSummary.mergeNestedSummary summary key nested).errors)
    ∧ (∀ msgs, ("_self", msgs) ∈ nested.errors →
        (key ++ "._self", msgs) ∈ (ValidationSummary.mergeNestedSummary summary key nested).errors)
    ∧ (ValidationSummary.mergeNestedSummary summary key nested).valid
        = (summary.valid && nested.valid)
    ∧ (ValidationSummary.mergeNestedSummary summary key nested).errorCount
        = summary.errorCount + nested.errorCount := by
  have herrors : (ValidationSummary.mergeNestedSummary summary key nested).errors
      = summary.errors ++ nested.errors.map (fun kv => (key ++ "." ++ kv.1, kv.2)) := by
    show fromEntries (summary.errors
        ++ nested.errors.map (fun kv => (key ++ "." ++ kv.1, kv.2)))
      = summary.errors ++ nested.errors.map (fun kv => (key ++ "." ++ kv.1, kv.2))
    exact fromEntries_eq_self hnd
  have hmem : ∀ ck msgs, (ck, msgs) ∈ nested.errors →
      (key ++ "." ++ ck, msgs) ∈ (ValidationSummary.mergeNestedSummary summary key nested).errors := by
    intro ck msgs hm
    rw [herrors]
    apply List.mem_append_right
    exact List.mem_map.mpr ⟨(ck, msgs), hm, rfl⟩
  refine ⟨rfl, rfl, herrors, hmem, ?_, ?_, rfl⟩
  · intro msgs hm
    have := hmem "_self" msgs hm
    rwa [dot_self_append] at this
  · show (nested.valid && summary.valid) = (summary.valid && nested.valid)
    exact Bool.and_comm _ _

/-- Claim C5: a throw from a predicate, or from a message factory after
its predicate returned false, is caught at single-rule granularity: the
rule evaluates to an ordinary `addErr` of the resolved errorHandler's
message (so nothing escapes `Validate`, whose total result type is a
Summary), the summary is marked invalid with errorCount incremented,
the remaining rules of the property keep folding over the updated
summary, and the outcome is identical to that of an ordinary failed
rule whose message factory returns the same message. -/
theorem evalRule_exception_spec (options : PopulatedValidationOptions) (o : JSVal) (ptc : String)
    (value : JSVal) (i : Nat) (summary : ValidationSummary) (rule : ValidationPropertyRule)
    (e : JSVal) (rest : List ValidationPropertyRule)
    (h : rule.1 value ptc o = Except.error e ∨
        (rule.1 value ptc o = Except.ok false ∧ rule.2 value ptc o = Except.error e)) :
    evalRule options o ptc value i summary rule
      = ValidationSummary.addErr ptc
          (options.errorHandler { key := ptc, value := value, ruleIndex := i, error := e }) summary
    ∧ (evalRule options o ptc value i summary rule).valid = false
    ∧ (evalRule options o ptc value i summary rule).errorCount = summary.errorCount + 1
    ∧ (rule :: rest).foldl (evalRule options o ptc value i) summary
        = rest.foldl (evalRule options o ptc value i) (evalRule options o ptc value i summary rule)
    ∧ (∀ rule2 : ValidationPropertyRule,
        rule2.1 value ptc o = Except.ok false →
        rule2.2 value ptc o = Except.ok
            (options.errorHandler { key := ptc, value := value, ruleIndex := i, error := e }) →
        evalRule options o ptc value i summary rule = evalRule options o ptc value i summary rule2) := by
  have he : evalRule options o ptc value i summary rule
      = ValidationSummary.addErr ptc
          (options.errorHandler { key := ptc, value := value, ruleIndex := i, error := e })
          summary := by
    rcases h with h1 | ⟨h1, h2⟩
    · rw [evalRule, h1]
    · rw [evalRule, h1]
      simp only [Bool.false_eq_true, if_false]
      rw [h2]
  refine ⟨he, ?_, ?_, rfl, ?_⟩
  · rw [he]; rfl
  · rw [he]; rfl
  · intro rule2 h1 h2
    rw [he, evalRule, h1]
    simp only [Bool.false_eq_true, if_false]
    rw [h2]

/-- The raw `isOptional` probe of the non-object guard agrees with the
resolved options. -/
theorem resolve_isOptional_eq_raw (specOptions : Option ValidationOptions) :
    (resolveOptions specOptions).isOptional = rawIsOptional specOptions := by
  cases specOptions <;> rfl

/-- Claim C4 (amended): for every Spec, a non-object value makes
`Validate` return without traversing the property map (the result does
not depend on `props`): when the resolved `isOptional` is true and the
value is absent (null/undefined) the Summary is valid and empty,
otherwise it carries the single reserved self-key error
"Value must be an object".  The amendment is the capital V: the claim
quoted the message as "value must be an object". -/
theorem validate_non_object (props : List (String × SpecEntry))
    (specOptions : Option ValidationOptions) (o : JSVal) (h : isObjectVal o = false) :
    Validate (ValidationSpec.mk props specOptions) o
      = if (resolveOptions specOptions).isOptional && !(existsVal o) then ValidationSummary.New
        else { valid := false, errorCount := 1, missingProperties := [], redundantProperties := [],
               errors := [("_self", ["Value must be an object"])] } := by
  rw [Validate, specSize]
  rw [show propsSize props + 1 = Nat.succ (propsSize props) from rfl]
  rw [validateFuel]
  rw [resolve_isOptional_eq_raw]
  simp only [h, Bool.not_false, if_true]
  cases hraw : rawIsOptional specOptions <;> cases hex : existsVal o <;>
    simp [ValidationSummary.addErr, ValidationSummary.incErrCount, ValidationSummary.New, pushErr]

/-- Unfolding `Validate` on a structural object: options resolution,
pre-check, recording, then the property loop. -/
theorem validate_obj_eq (props : List (String × SpecEntry))
    (specOptions : Option ValidationOptions) (fields : List (String × JSVal)) :
    Validate (ValidationSpec.mk props specOptions) (JSVal.obj fields)
      = validatePropsLoop (validateFuel (propsSize props)) props (resolveOptions specOptions)
          (JSVal.obj fields) 0
          (validationPreCheckProps (props.map Prod.fst) (resolveOptions specOptions)
            (JSVal.obj fields)).propsToCheck
          (recordPreCheck (resolveOptions specOptions)
            (validationPreCheckProps (props.map Prod.fst) (resolveOptions specOptions)
              (JSVal.obj fields))
            ValidationSummary.New) := by
  rw [Validate, specSize]
  rw [show propsSize props + 1 = Nat.succ (propsSize props) from rfl]
  rw [validateFuel]
  simp only [isObjectVal, Bool.not_true, Bool.false_eq_true, if_false]

theorem evalRule_missing (options : PopulatedValidationOptions) (o : JSVal) (ptc : String)
    (value : JSVal) (i : Nat) (s : ValidationSummary) (rule : ValidationPropertyRule) :
    (evalRule options o ptc value i s rule).missingProperties = s.missingProperties := by
  rw [evalRule]
  rcases rule.1 value ptc o with e | b
  · rfl
  · rcases b with _ | _
    · simp only [Bool.false_eq_true, if_false]
      rcases rule.2 value ptc o with e | msg <;> rfl
    · rfl

theorem evalRule_redundant (options : PopulatedValidationOptions) (o : JSVal) (ptc : String)
    (value : JSVal) (i : Nat) (s : ValidationSummary) (rule : ValidationPropertyRule) :
    (evalRule options o ptc value i s rule).redundantProperties = s.redundantProperties := by
  rw [evalRule]
  rcases rule.1 value ptc o with e | b
  · rfl
  · rcases b with _ | _
    · simp only [Bool.false_eq_true, if_false]
      rcases rule.2 value ptc o with e | msg <;> rfl
    · rfl

theorem evalRule_invalid (options : PopulatedValidationOptions) (o : JSVal) (ptc : String)
    (value : JSVal) (i : Nat) {s : ValidationSummary} (rule : ValidationPropertyRule)
    (hs : s.valid = false) :
    (evalRule options o ptc value i s rule).valid = false := by
  rw [evalRule]
  rcases rule.1 value ptc o with e | b
  · rfl
  · rcases b with _ | _
    · simp only [Bool.false_eq_true, if_false]
      rcases rule.2 value ptc o with e | msg <;> rfl
    · simpa

theorem foldl_evalRule_missing (options : PopulatedValidationOptions) (o : JSVal) (ptc : String)
    (value : JSVal) (i : Nat) (rules : List ValidationPropertyRule) :
    ∀ s : ValidationSummary,
      (rules.foldl (evalRule options o ptc value i) s).missingProperties
        = s.missingProperties := by
  induction rules with
  | nil => intro s; rfl
  | cons r rest ih =>
    intro s
    rw [List.foldl_cons, ih, evalRule_missing]

theorem foldl_evalRule_redundant (options : PopulatedValidationOptions) (o : JSVal) (ptc : String)
    (value : JSVal) (i : Nat) (rules : List ValidationPropertyRule) :
    ∀ s : ValidationSummary,
      (rules.foldl (evalRule options o ptc value i) s).redundantProperties
        = s.redundantProperties := by
  induction rules with
  | nil => intro s; rfl
  | cons r rest ih =>
    intro s
    rw [List.foldl_cons, ih, evalRule_redundant]

theorem foldl_evalRule_invalid (options : PopulatedValidationOptions) (o : JSVal) (ptc : String)
    (value : JSVal) (i : Nat) (rules : List ValidationPropertyRule) :
    ∀ {s : ValidationSummary}, s.valid = false →
      (rules.foldl (evalRule options o ptc value i) s).valid = false := by
  induction rules with
  | nil => intro s hs; simpa
  | cons r rest ih =>
    intro s hs
    rw [List.foldl_cons]
    exact ih (evalRule_invalid options o ptc value i r hs)

theorem loop_missing_extends (recurse : ValidationSpec → JSVal → ValidationSummary)
    (props : List (String × SpecEntry)) (options : PopulatedValidationOptions) (o : JSVal) :
    ∀ (ptcs : List String) (i : Nat) (s : ValidationSummary), ∃ t,
      (validatePropsLoop recurse props options o i ptcs s).missingProperties
        = s.missingProperties ++ t := by
  intro ptcs
  induction ptcs with
  | nil => intro i s; exact ⟨[], by simp [validatePropsLoop]⟩
  | cons ptc rest ih =>
    intro i s
    rw [validatePropsLoop]
    split
    · exact ⟨[], by simp⟩
    · rcases hlk : props.lookup ptc with _ | entry
      · simpa using ih (i + 1) s
      · rcases entry with rs | keySpec
      
        · rcases ih (i + 1) (rs.foldl (evalRule options o ptc (getProp o ptc) i) s) with ⟨t, ht⟩
          exact ⟨t, by rw [ht, foldl_evalRule_missing]⟩
        · rcases ih (i + 1)
              (ValidationSummary.mergeNestedSummary s ptc (recurse keySpec (getProp o ptc)))
            with ⟨t, ht⟩
          refine ⟨(recurse keySpec (getProp o ptc)).missingProperties.map
              (fun v => ptc ++ "." ++ v) ++ t, ?_⟩
          rw [ht]
          show (ValidationSummary.mergeNestedSummary s ptc
              (recurse keySpec (getProp o ptc))).missingProperties ++ t = _
          rw [ValidationSummary.mergeNestedSummary]
          simp

theorem loop_redundant_extends (recurse : ValidationSpec → JSVal → ValidationSummary)
    (props : List (String × SpecEntry)) (options : PopulatedValidationOptions) (o : JSVal) :
    ∀ (ptcs : List String) (i : Nat) (s : ValidationSummary), ∃ t,
      (validatePropsLoop recurse props options o i ptcs s).redundantProperties
        = s.redundantProperties ++ t := by
  intro ptcs
  induction ptcs with
  | nil => intro i s; exact ⟨[], by simp [validatePropsLoop]⟩
  | cons ptc rest ih =>
    intro i s
    rw [validatePropsLoop]
    split
    · exact ⟨[], by simp⟩
    · rcases hlk : props.lookup ptc with _ | entry
      · simpa using ih (i + 1) s
      · rcases entry with rs | keySpec
      
        · rcases ih (i + 1) (rs.foldl (evalRule options o ptc (getProp o ptc) i) s) with ⟨t, ht⟩
          exact ⟨t, by rw [ht, foldl_evalRule_redundant]⟩
        · rcases ih (i + 1)
              (ValidationSummary.mergeNestedSummary s ptc (recurse keySpec (getProp o ptc)))
            with ⟨t, ht⟩
          refine ⟨(recurse keySpec (getProp o ptc)).redundantProperties.map
              (fun v => ptc ++ "." ++ v) ++ t, ?_⟩
          rw [ht]
          show (ValidationSummary.mergeNestedSummary s ptc
              (recurse keySpec (getProp o ptc))).redundantProperties ++ t = _
          rw [ValidationSummary.mergeNestedSummary]
          simp

theorem loop_invalid_stays (recurse : ValidationSpec → JSVal → ValidationSummary)
    (props : List (String × SpecEntry)) (options : PopulatedValidationOptions) (o : JSVal) :
    ∀ (ptcs : List String) (i : Nat) {s : ValidationSummary}, s.valid = false →
      (validatePropsLoop recurse props options o i ptcs s).valid = false := by
  intro ptcs
  induction ptcs with
  | nil => intro i s hs; simpa [validatePropsLoop]
  | cons ptc rest ih =>
    intro i s hs
    rw [validatePropsLoop]
    split
    · exact hs
    · apply ih
      rcases props.lookup ptc with _ | entry
      · simpa using hs
      · rcases entry with rs | keySpec
        · exact foldl_evalRule_invalid options o ptc (getProp o ptc) i rs hs
        · show ((recurse keySpec (getProp o ptc)).valid && s.valid) = false
          rw [hs, Bool.and_false]

theorem recordPreCheck_missing_of_ne (options : PopulatedValidationOptions)
    (pcr : CheckPropsResult) (hm : pcr.missing ≠ []) :
    (recordPreCheck options pcr ValidationSummary.New).missingProperties = pcr.missing := by
  have hm2 : pcr.missing.isEmpty = false := by
    simpa [List.isEmpty_iff] using hm
  unfold recordPreCheck
  simp only [hm2, Bool.false_eq_true, if_false]
  split_ifs <;> rfl

theorem recordPreCheck_valid_of_missing (options : PopulatedValidationOptions)
    (pcr : CheckPropsResult) (hm : pcr.missing ≠ []) :
    (recordPreCheck options pcr ValidationSummary.New).valid = false := by
  have hm2 : pcr.missing.isEmpty = false := by
    simpa [List.isEmpty_iff] using hm
  unfold recordPreCheck
  simp only [hm2, Bool.false_eq_true, if_false]
  split_ifs <;> rfl

theorem recordPreCheck_errorCount_New (options : PopulatedValidationOptions)
    (pcr : CheckPropsResult) :
    (recordPreCheck options pcr ValidationSummary.New).errorCount
      = (if pcr.missing.isEmpty then 0 else 1)
        + (if pcr.redundant.isEmpty then 0 else if options.redundantIsError then 1 else 0) := by
  unfold recordPreCheck
  split_ifs <;> rfl

theorem recordPreCheck_redundant_of_ne (options : PopulatedValidationOptions)
    (pcr : CheckPropsResult) (hr : pcr.redundant ≠ []) :
    (recordPreCheck options pcr ValidationSummary.New).redundantProperties = pcr.redundant := by
  have hr2 : pcr.redundant.isEmpty = false := by
    simpa [List.isEmpty_iff] using hr
  unfold recordPreCheck
  simp only [hr2, Bool.false_eq_true, if_false]
  split_ifs <;> rfl

/-- Claim C6: when one or more required (declared, non-optional)
properties are missing from the object, the summary entering the
property loop records exactly the missing list, is invalid, and counts
exactly 1 for the whole missing block regardless of how many properties
are missing; `Validate` returns that summary evolved by the loop, so
every missing property is listed in the returned missingProperties and
the returned Summary is invalid. -/
theorem validate_missing_block (props : List (String × SpecEntry))
    (specOptions : Option ValidationOptions) (fields : List (String × JSVal))
    (options : PopulatedValidationOptions) (pcr : CheckPropsResult) (base : ValidationSummary)
    (hoptions : options = resolveOptions specOptions)
    (hpcr : pcr = validationPreCheckProps (props.map Prod.fst) options (JSVal.obj fields))
    (hbase : base = recordPreCheck options pcr ValidationSummary.New)
    (hm : pcr.missing ≠ []) :
    Validate (ValidationSpec.mk props specOptions) (JSVal.obj fields)
        = validatePropsLoop (validateFuel (propsSize props)) props options (JSVal.obj fields) 0
            pcr.propsToCheck base
    ∧ base.missingProperties = pcr.missing
    ∧ base.valid = false
    ∧ base.errorCount
        = 1 + (if pcr.redundant.isEmpty then 0 else if options.redundantIsError then 1 else 0)
    ∧ (∀ m ∈ pcr.missing,
        m ∈ (Validate (ValidationSpec.mk props specOptions) (JSVal.obj fields)).missingProperties)
    ∧ (Validate (ValidationSpec.mk props specOptions) (JSVal.obj fields)).valid = false := by
  subst hoptions
  subst hpcr
  subst hbase
  have hm2 : (validationPreCheckProps (props.map Prod.fst) (resolveOptions specOptions)
      (JSVal.obj fields)).missing.isEmpty = false := by
    simpa [List.isEmpty_iff] using hm
  have hdec := validate_obj_eq props specOptions fields
  refine ⟨hdec, recordPreCheck_missing_of_ne _ _ hm, recordPreCheck_valid_of_missing _ _ hm,
    ?_, ?_, ?_⟩
  · rw [recordPreCheck_errorCount_New]
    rw [hm2]
    rfl
  · intro m hmem
    rw [hdec]
    rcases loop_missing_extends (validateFuel (propsSize props)) props
        (resolveOptions specOptions) (JSVal.obj fields) _ 0
        (recordPreCheck (resolveOptions specOptions) _ ValidationSummary.New) with ⟨t, ht⟩
    rw [ht, recordPreCheck_missing_of_ne _ _ hm]
    exact List.mem_append_left _ hmem
  · rw [hdec]
    exact loop_invalid_stays _ _ _ _ _ _ (recordPreCheck_valid_of_missing _ _ hm)

/-- Claim C7: when the object has present undeclared properties, the
summary entering the property loop records exactly the redundant list,
and the redundant block contributes exactly 1 to errorCount when the
resolved redundantIsError is true (which is the default) and exactly 0
when it is false; every redundant property is listed in the returned
redundantProperties either way. -/
theorem validate_redundant_block (props : List (String × SpecEntry))
    (specOptions : Option ValidationOptions) (fields : List (String × JSVal))
    (options : PopulatedValidationOptions) (pcr : CheckPropsResult) (base : ValidationSummary)
    (hoptions : options = resolveOptions specOptions)
    (hpcr : pcr = validationPreCheckProps (props.map Prod.fst) options (JSVal.obj fields))
    (hbase : base = recordPreCheck options pcr ValidationSummary.New)
    (hr : pcr.redundant ≠ []) :
    Validate (ValidationSpec.mk props specOptions) (JSVal.obj fields)
        = validatePropsLoop (validateFuel (propsSize props)) props options (JSVal.obj fields) 0
            pcr.propsToCheck base
    ∧ base.redundantProperties = pcr.redundant
    ∧ base.errorCount
        = (if pcr.missing.isEmpty then 0 else 1)
          + (if options.redundantIsError then 1 else 0)
    ∧ (∀ p ∈ pcr.redundant,
        p ∈ (Validate (ValidationSpec.mk props specOptions)
              (JSVal.obj fields)).redundantProperties)
    ∧ defaultValidationOptions.redundantIsError = true := by
  subst hoptions
  subst hpcr
  subst hbase
  have hr2 : (validationPreCheckProps (props.map Prod.fst) (resolveOptions specOptions)
      (JSVal.obj fields)).redundant.isEmpty = false := by
    simpa [List.isEmpty_iff] using hr
  have hdec := validate_obj_eq props specOptions fields
  refine ⟨hdec, recordPreCheck_redundant_of_ne _ _ hr, ?_, ?_, rfl⟩
  · rw [recordPreCheck_errorCount_New]
    rw [hr2]
    simp
  · intro p hmem
    rw [hdec]
    rcases loop_redundant_extends (validateFuel (propsSize props)) props
        (resolveOptions specOptions) (JSVal.obj fields) _ 0
        (recordPreCheck (resolveOptions specOptions) _ ValidationSummary.New) with ⟨t, ht⟩
    rw [ht, recordPreCheck_redundant_of_ne _ _ hr]
    exact List.mem_append_left _ hmem

/-- Claim C1, code bug: the throwing rule sits at index 1 of the
property's rule list, yet the default errorHandler reports rule index 0
because the source passes the enclosing propsToCheck loop counter as
`ruleIndex`. -/
theorem validate_ruleIndex_is_property_index :
    Validate ruleIndexProbeSpec ruleIndexProbeObj
      = { valid := false, errorCount := 1, missingProperties := [], redundantProperties := [],
          errors := [("a", ["Error while validating property \"a\" at rule index 0"])] }
    ∧ "Error while validating property \"a\" at rule index 0"
        ≠ "Error while validating property \"a\" at rule index 1" := by
  constructor
  · decide
  · decide

/-- Claim C4, counterexample: the recorded self-key message is
"Value must be an object" (capital V), not "value must be an object". -/
theorem validate_non_object_message :
    (Validate (ValidationSpec.mk [] none) (JSVal.num 0)).errors
      = [("_self", ["Value must be an object"])]
    ∧ "Value must be an object" ≠ "value must be an object" := by
  constructor
  · decide
  · decide

theorem validate_non_object_witness :
    isObjectVal (JSVal.str "cat") = false
    ∧ Validate (ValidationSpec.mk [] none) (JSVal.str "cat")
        = (if (resolveOptions none).isOptional && !(existsVal (JSVal.str "cat")) then
             ValidationSummary.New
           else
             { valid := false, errorCount := 1, missingProperties := [],
               redundantProperties := [],
               errors := [("_self", ["Value must be an object"])] }) :=
  ⟨rfl, validate_non_object [] none (JSVal.str "cat") rfl⟩

theorem lookup_append {α : Type} (l1 l2 : List (String × α)) (k : String) :
    (l1 ++ l2).lookup k
      = match l1.lookup k with
        | some v => some v
        | none => l2.lookup k := by
  induction l1 with
  | nil => simp [List.lookup]
  | cons kv rest ih =>
    rcases kv with ⟨k2, v2⟩
    rw [List.cons_append, List.lookup, List.lookup]
    by_cases hk : k = k2
    · subst hk
      simp only [beq_self_eq_true]
    · have hb : (k == k2) = false := by simp [hk]
      simp only [hb]
      exact ih

theorem lookup_map_override {α : Type} (ext parent : List (String × α)) (k : String) :
    (parent.map (fun kv => (kv.1, (ext.lookup kv.1).getD kv.2))).lookup k
      = match parent.lookup k with
        | some v => some ((ext.lookup k).getD v)
        | none => none := by
  induction parent with
  | nil => simp [List.lookup]
  | cons kv rest ih =>
    rcases kv with ⟨k2, v2⟩
    simp only [List.map_cons]
    by_cases hk : k = k2
    · subst hk
      simp [List.lookup, beq_self_eq_true]
    · have hb : (k == k2) = false := by simp [hk]
      simp [List.lookup, hb, ih]

theorem lookup_filter_extonly {α : Type} (ext parent : List (String × α)) (k : String)
    (hp : parent.lookup k = none) :
    (ext.filter (fun kv => (parent.lookup kv.1).isNone)).lookup k = ext.lookup k := by
  induction ext with
  | nil => simp
  | cons kv rest ih =>
    rcases kv with ⟨k2, v2⟩
    rw [List.filter_cons]
    by_cases hk : k = k2
    · subst hk
      simp only [hp, Option.isNone_none, if_pos rfl]
      simp [List.lookup, beq_self_eq_true]
    · have hb : (k == k2) = false := by simp [hk]
      rcases h2 : parent.lookup k2 with _ | v
      · simp only [h2, Option.isNone_none, if_pos rfl]
        simp [List.lookup, hb, ih]
      · simp only [h2, Option.isNone_some, Bool.false_eq_true, if_false]
        simp [List.lookup, hb, ih]

theorem lookup_filter_parent_present {α : Type} (ext parent : List (String × α)) (k : String)
    {v : α} (hp : parent.lookup k = some v) :
    (ext.filter (fun kv => (parent.lookup kv.1).isNone)).lookup k = none := by
  induction ext with
  | nil => simp
  | cons kv rest ih =>
    rcases kv with ⟨k2, v2⟩
    rw [List.filter_cons]
    by_cases hk : k = k2
    · subst hk
      simp only [hp, Option.isNone_some, Bool.false_eq_true, if_false]
      exact ih
    · have hb : (k == k2) = false := by simp [hk]
      rcases h2 : parent.lookup k2 with _ | v3
      · simp only [h2, Option.isNone_none, if_pos rfl]
        simp [List.lookup, hb, ih]
      · simp only [h2, Option.isNone_some, Bool.false_eq_true, if_false]
        exact ih

theorem imposeProps_lookup (ext parent : List (String × SpecEntry)) (k : String) :
    (imposeProps ext parent).lookup k
      = match ext.lookup k with
        | some e => some e
        | none => parent.lookup k := by
  rw [imposeProps, lookup_append, lookup_map_override]
  rcases hp : parent.lookup k with _ | v
  · rw [lookup_filter_extonly ext parent k hp]
    rcases he : ext.lookup k with _ | e <;> simp [he]
  · rcases he : ext.lookup k with _ | e
    · simp [he, hp]
    · simp [he]

/-- Claim C9: `Extend` removes every key named in the extension's
omitKeys from the result; extension entries override the parent's and
parent-only entries are carried over unchanged — unconditionally at the
impose stage, and in the final result for keys not named in omitKeys
(omission is applied after the override/carry-over step and takes
precedence); the attached options carry optionalProps exactly as the
extension's options declared them; and omitKeys itself is stripped from
the attached options. -/
theorem Extend_spec (extProps parentProps : List (String × SpecEntry))
    (extOptions : ValidationOptions) (parentOptions : Option ValidationOptions)
    (omitted optionalList : List String)
    (homit : extOptions.omitKeys = some omitted)
    (hopt : extOptions.optionalProps = some optionalList) :
    (∀ k, omitted.contains k = true →
        (Extend (ValidationSpec.mk extProps (some extOptions))
            (ValidationSpec.mk parentProps parentOptions)).props.lookup k = none)
    ∧ (∀ k e, omitted.contains k = false → extProps.lookup k = some e →
        (Extend (ValidationSpec.mk extProps (some extOptions))
            (ValidationSpec.mk parentProps parentOptions)).props.lookup k = some e)
    ∧ (∀ k, omitted.contains k = false → extProps.lookup k = none →
        (Extend (ValidationSpec.mk extProps (some extOptions))
            (ValidationSpec.mk parentProps parentOptions)).props.lookup k
          = parentProps.lookup k)
    ∧ (∀ k e, extProps.lookup k = some e →
        (imposeProps extProps parentProps).lookup k = some e)
    ∧ (∀ k, extProps.lookup k = none →
        (imposeProps extProps parentProps).lookup k = parentProps.lookup k)
    ∧ (∃ resultOptions,
        (Extend (ValidationSpec.mk extProps (some extOptions))
            (ValidationSpec.mk parentProps parentOptions)).options = some resultOptions
        ∧ resultOptions.optionalProps = some optionalList
        ∧ resultOptions.omitKeys = none) := by
  have homit2 : (imposeOptions extOptions (parentOptions.getD {})).omitKeys = some omitted := by
    simp [imposeOptions, homit]
  have hprops : (Extend (ValidationSpec.mk extProps (some extOptions))
      (ValidationSpec.mk parentProps parentOptions)).props
        = (imposeProps extProps parentProps).filter (fun kv => !(omitted.contains kv.1)) := by
    rw [Extend]
    show (imposeProps extProps parentProps).filter
        (fun kv =>
          !((((imposeOptions (Option.getD (some extOptions) {})
                (parentOptions.getD {})).omitKeys).getD []).contains kv.1))
      = _
    rw [Option.getD_some, homit2, Option.getD_some]
  refine ⟨?_, ?_, ?_, ?_, ?_, ?_⟩
  · intro k hk
    rw [hprops]
    exact lookup_filter_omitted hk _
  · intro k e hk he
    rw [hprops, lookup_filter_kept hk, imposeProps_lookup, he]
  · intro k hk he
    rw [hprops, lookup_filter_kept hk, imposeProps_lookup, he]
  · intro k e he
    rw [imposeProps_lookup, he]
  · intro k he
    rw [imposeProps_lookup, he]
  · refine ⟨{ imposeOptions extOptions (parentOptions.getD {}) with omitKeys := none },
      ?_, ?_, rfl⟩
    · rw [Extend]
      simp only [ValidationSpec.options, Option.getD_some]
    · show (imposeOptions extOptions (parentOptions.getD {})).optionalProps = some optionalList
      simp [imposeOptions, hopt]

mutual
theorem maskSpec_size (q : JSVal → String → JSVal → Except JSVal Bool)
    (qm : JSVal → String → JSVal → Except JSVal String) :
    ∀ s : ValidationSpec, specSize (maskSpec q qm s) = specSize s
  | ValidationSpec.mk props opts => by
    rw [maskSpec, specSize, specSize, maskProps_size q qm props]

theorem maskProps_size (q : JSVal → String → JSVal → Except JSVal Bool)
    (qm : JSVal → String → JSVal → Except JSVal String) :
    ∀ props : List (String × SpecEntry), propsSize (maskProps q qm props) = propsSize props
  | [] => rfl
  | (k, e) :: rest => by
    rw [maskProps, propsSize, propsSize, maskEntry_size q qm e, maskProps_size q qm rest]

theorem maskEntry_size (q : JSVal → String → JSVal → Except JSVal Bool)
    (qm : JSVal → String → JSVal → Except JSVal String) :
    ∀ e : SpecEntry, entrySize (maskEntry q qm e) = entrySize e
  | SpecEntry.rules rs => rfl
  | SpecEntry.nested s => by
    rw [maskEntry, entrySize, entrySize, maskSpec_size q qm s]
end

theorem maskProps_keys (q : JSVal → String → JSVal → Except JSVal Bool)
    (qm : JSVal → String → JSVal → Except JSVal String) :
    ∀ props : List (String × SpecEntry),
      (maskProps q qm props).map Prod.fst = props.map Prod.fst := by
  intro props
  induction props with
  | nil => rfl
  | cons kv rest ih =>
    rcases kv with ⟨k, e⟩
    rw [maskProps, List.map_cons, List.map_cons, ih]

theorem maskProps_lookup (q : JSVal → String → JSVal → Except JSVal Bool)
    (qm : JSVal → String → JSVal → Except JSVal String) (k : String) :
    ∀ props : List (String × SpecEntry),
      (maskProps q qm props).lookup k = (props.lookup k).map (maskEntry q qm) := by
  intro props
  induction props with
  | nil => rfl
  | cons kv rest ih =>
    rcases kv with ⟨k2, e⟩
    rw [maskProps, List.lookup, List.lookup]
    by_cases hk : k = k2
    · subst hk
      simp only [beq_self_eq_true]
      rfl
    · have hb : (k == k2) = false := by simp [hk]
      simp only [hb]
      exact ih

theorem present_lookup {p : String} :
    ∀ {fields : List (String × JSVal)}, (fields.map Prod.fst).Nodup →
      p ∈ (fields.filter (fun kv => existsVal kv.2)).map Prod.fst →
      ∃ v, fields.lookup p = some v ∧ existsVal v = true := by
  intro fields
  induction fields with
  | nil => intro _ hp; simp at hp
  | cons kv rest ih =>
    intro hnd hp
    rcases kv with ⟨k, v⟩
    rw [List.map_cons, List.nodup_cons] at hnd
    have hsub : ∀ {x : String},
        x ∈ (rest.filter (fun kv => existsVal kv.2)).map Prod.fst → x ∈ rest.map Prod.fst := by
      intro x hx
      rcases List.mem_map.mp hx with ⟨kv2, hkv2, hfst⟩
      exact hfst ▸ List.mem_map_of_mem _ (List.mem_of_mem_filter hkv2)
    by_cases hv : existsVal v = true
    · have hv3 : (fun kv => existsVal kv.2) ((k, v) : String × JSVal) = true := hv
      rw [@List.filter_cons_of_pos (String × JSVal) (fun kv => existsVal kv.2) (k, v) rest hv3,
        List.map_cons] at hp
      rcases List.mem_cons.mp hp with hp | hp
      · subst hp
        refine ⟨v, ?_, hv⟩
        rw [List.lookup]
        simp only [beq_self_eq_true]
      · have hne : p ≠ k := by
          intro he
          exact hnd.1 (he ▸ hsub hp)
        have hb : (p == k) = false := by simp [hne]
        rw [List.lookup]
        simp only [hb]
        exact ih hnd.2 hp
    · have hv3 : ¬((fun kv => existsVal kv.2) ((k, v) : String × JSVal) = true) := hv
      rw [@List.filter_cons_of_neg (String × JSVal) (fun kv => existsVal kv.2) (k, v) rest hv3]
        at hp
      have hne : p ≠ k := by
        intro he
        exact hnd.1 (he ▸ hsub hp)
      have hb : (p == k) = false := by simp [hne]
      rw [List.lookup]
      simp only [hb]
      exact ih hnd.2 hp

theorem propsToCheck_sub_present (declared : List String)
    (options : PopulatedValidationOptions) (o : JSVal) {p : String}
    (hp : p ∈ (validationPreCheckProps declared options o).propsToCheck) :
    p ∈ ((objEntries o).filter (fun kv => existsVal kv.2)).map Prod.fst := by
  have : p ∈ (((objEntries o).filter (fun kv => existsVal kv.2)).map Prod.fst).filter
      (fun x => declared.contains x) := hp
  exact List.mem_of_mem_filter this

theorem evalRule_mask (q : JSVal → String → JSVal → Except JSVal Bool)
    (qm : JSVal → String → JSVal → Except JSVal String)
    (options : PopulatedValidationOptions) (o : JSVal) (ptc : String) {value : JSVal}
    (i : Nat) (s : ValidationSummary) (rule : ValidationPropertyRule)
    (hex : existsVal value = true) :
    evalRule options o ptc value i s (maskRule q qm rule)
      = evalRule options o ptc value i s rule := by
  rw [evalRule, evalRule, maskRule]
  simp [hex]

theorem foldl_evalRule_mask (q : JSVal → String → JSVal → Except JSVal Bool)
    (qm : JSVal → String → JSVal → Except JSVal String)
    (options : PopulatedValidationOptions) (o : JSVal) (ptc : String) {value : JSVal}
    (i : Nat) (hex : existsVal value = true) :
    ∀ (rules : List ValidationPropertyRule) (s : ValidationSummary),
      (rules.map (maskRule q qm)).foldl (evalRule options o ptc value i) s
        = rules.foldl (evalRule options o ptc value i) s := by
  intro rules
  induction rules with
  | nil => intro s; rfl
  | cons r rest ih =>
    intro s
    rw [List.map_cons, List.foldl_cons, List.foldl_cons,
      evalRule_mask q qm options o ptc i s r hex]
    exact ih _

theorem validatePropsLoop_mask (q : JSVal → String → JSVal → Except JSVal Bool)
    (qm : JSVal → String → JSVal → Except JSVal String)
    (recurse : ValidationSpec → JSVal → ValidationSummary)
    (props : List (String × SpecEntry)) (options : PopulatedValidationOptions)
    (fields : List (String × JSVal))
    (hrec : ∀ sp v, WFVal v → recurse (maskSpec q qm sp) v = recurse sp v)
    (hnd : (fields.map Prod.fst).Nodup) (hw : ∀ kv ∈ fields, WFVal kv.2) :
    ∀ (ptcs : List String),
      (∀ p ∈ ptcs, p ∈ (fields.filter (fun kv => existsVal kv.2)).map Prod.fst) →
      ∀ (i : Nat) (s : ValidationSummary),
        validatePropsLoop recurse (maskProps q qm props) options (JSVal.obj fields) i ptcs s
          = validatePropsLoop recurse props options (JSVal.obj fields) i ptcs s := by
  intro ptcs
  induction ptcs with
  | nil => intro _ i s; rfl
  | cons ptc rest ih =>
    intro hpres i s
    rw [validatePropsLoop, validatePropsLoop]
    split
    · rfl
    · have hpresent := hpres ptc (List.mem_cons_self _ _)
      rcases present_lookup hnd hpresent with ⟨v, hlk, hex⟩
      have hget : getProp (JSVal.obj fields) ptc = v := by
        rw [getProp]
        show (fields.lookup ptc).getD JSVal.undef = v
        rw [hlk]
        rfl
      have hrest : ∀ p ∈ rest, p ∈ (fields.filter (fun kv => existsVal kv.2)).map Prod.fst :=
        fun p hp => hpres p (List.mem_cons_of_mem _ hp)
      rw [maskProps_lookup]
      rcases hpe : props.lookup ptc with _ | entry
      · simp only [Option.map_none]
        exact ih hrest (i + 1) s
      · rcases entry with rs | keySpec
        · simp only [Option.map_some]
          show validatePropsLoop recurse (maskProps q qm props) options (JSVal.obj fields)
              (i + 1) rest ((rs.map (maskRule q qm)).foldl
                (evalRule options (JSVal.obj fields) ptc (getProp (JSVal.obj fields) ptc) i) s)
            = validatePropsLoop recurse props options (JSVal.obj fields) (i + 1) rest
                (rs.foldl (evalRule options (JSVal.obj fields) ptc
                  (getProp (JSVal.obj fields) ptc) i) s)
          rw [hget, foldl_evalRule_mask q qm options (JSVal.obj fields) ptc i hex]
          exact ih hrest (i + 1) _
        · simp only [Option.map_some]
          have hwv : WFVal v := hw _ (lookup_mem hlk)
          show validatePropsLoop recurse (maskProps q qm props) options (JSVal.obj fields)
              (i + 1) rest (ValidationSummary.mergeNestedSummary s ptc
                (recurse (maskSpec q qm keySpec) (getProp (JSVal.obj fields) ptc)))
            = validatePropsLoop recurse props options (JSVal.obj fields) (i + 1) rest
                (ValidationSummary.mergeNestedSummary s ptc
                  (recurse keySpec (getProp (JSVal.obj fields) ptc)))
          rw [hget, hrec keySpec v hwv]
          exact ih hrest (i + 1) _

theorem validateFuel_mask (q : JSVal → String → JSVal → Except JSVal Bool)
    (qm : JSVal → String → JSVal → Except JSVal String) :
    ∀ (fuel : Nat) (s : ValidationSpec) (o : JSVal), WFVal o →
      validateFuel fuel (maskSpec q qm s) o = validateFuel fuel s o := by
  intro fuel
  induction fuel with
  | zero => intro s o _; rfl
  | succ fuel ih =>
    intro s o hw
    rcases s with ⟨props, specOptions⟩
    rw [maskSpec]
    rw [validateFuel, validateFuel]
    rcases o with _ | _ | b | n | st | xs | fields
    · simp [isObjectVal]
    · simp [isObjectVal]
    · simp [isObjectVal]
    · simp [isObjectVal]
    · simp [isObjectVal]
    · simp [isObjectVal]
    · simp only [isObjectVal, Bool.not_true, Bool.false_eq_true, if_false]
      rcases hw with _ | _ | _ | _ | _ | _ | ⟨_, hnd, hvals⟩
      rw [maskProps_keys]
      exact validatePropsLoop_mask q qm (validateFuel fuel) props
        (resolveOptions specOptions) fields (fun sp v hv => ih sp v hv) hnd hvals
        _ (fun p hp => propsToCheck_sub_present (props.map Prod.fst)
            (resolveOptions specOptions) (JSVal.obj fields) hp) 0
        (recordPreCheck (resolveOptions specOptions)
          (validationPreCheckProps (props.map Prod.fst) (resolveOptions specOptions)
            (JSVal.obj fields))
          ValidationSummary.New)

/-- Claim C10: for well-formed input values (objects with distinct
keys, as JavaScript guarantees), only properties whose values exist
(are neither null nor undefined) are placed in propsToCheck, and the
result of `Validate` is unchanged when every rule's behaviour on absent
values is replaced by arbitrary functions `q`/`qm` throughout the spec:
no predicate and no message factory is ever applied to an absent
value. -/
theorem validate_rules_only_on_existing (q : JSVal → String → JSVal → Except JSVal Bool)
    (qm : JSVal → String → JSVal → Except JSVal String) (s : ValidationSpec) (o : JSVal)
    (hw : WFVal o) :
    (∀ (declared : List String) (options : PopulatedValidationOptions) (p : String),
        p ∈ (validationPreCheckProps declared options o).propsToCheck →
        existsVal (getProp o p) = true)
    ∧ Validate (maskSpec q qm s) o = Validate s o := by
  constructor
  · intro declared options p hp
    rcases o with _ | _ | b | n | st | xs | fields
    · simp [validationPreCheckProps, objEntries] at hp
    · simp [validationPreCheckProps, objEntries] at hp
    · simp [validationPreCheckProps, objEntries] at hp
    · simp [validationPreCheckProps, objEntries] at hp
    · simp [validationPreCheckProps, objEntries] at hp
    · simp [validationPreCheckProps, objEntries] at hp
    · rcases hw with _ | _ | _ | _ | _ | _ | ⟨_, hnd, hvals⟩
      have hpres := propsToCheck_sub_present declared options (JSVal.obj fields) hp
      rcases present_lookup hnd hpres with ⟨v, hlk, hex⟩
      rw [getProp]
      show existsVal ((fields.lookup p).getD JSVal.undef) = true
      rw [hlk]
      exact hex
  · rw [Validate, Validate, maskSpec_size]
    exact validateFuel_mask q qm (specSize s) s o hw

theorem specSize_pos (s : ValidationSpec) : 1 ≤ specSize s := by
  rcases s with ⟨props, specOptions⟩
  rw [specSize]
  omega

theorem lookup_entrySize {props : List (String × SpecEntry)} {k : String} {e : SpecEntry}
    (h : props.lookup k = some e) : entrySize e < propsSize props := by
  induction props with
  | nil => simp [List.lookup] at h
  | cons kv rest ih =>
    rcases kv with ⟨k2, e2⟩
    rw [List.lookup] at h
    by_cases hk : k = k2
    · subst hk
      simp only [beq_self_eq_true, Option.some.injEq] at h
      subst h
      rw [propsSize]
      omega
    · have hb : (k == k2) = false := by simp [hk]
      simp only [hb] at h
      have := ih h
      rw [propsSize]
      omega

theorem validatePropsLoop_congr (r1 r2 : ValidationSpec → JSVal → ValidationSummary)
    (props : List (String × SpecEntry)) (options : PopulatedValidationOptions) (o : JSVal)
    (h : ∀ k sub, props.lookup k = some (SpecEntry.nested sub) → ∀ v, r1 sub v = r2 sub v) :
    ∀ (ptcs : List String) (i : Nat) (s : ValidationSummary),
      validatePropsLoop r1 props options o i ptcs s
        = validatePropsLoop r2 props options o i ptcs s := by
  intro ptcs
  induction ptcs with
  | nil => intro i s; rfl
  | cons ptc rest ih =>
    intro i s
    rw [validatePropsLoop, validatePropsLoop]
    split
    · rfl
    · rcases hpe : props.lookup ptc with _ | entry
      · exact ih _ _
      · rcases entry with rs | keySpec
        · exact ih _ _
        · show validatePropsLoop r1 props options o (i + 1) rest
              (ValidationSummary.mergeNestedSummary s ptc (r1 keySpec (getProp o ptc)))
            = validatePropsLoop r2 props options o (i + 1) rest
              (ValidationSummary.mergeNestedSummary s ptc (r2 keySpec (getProp o ptc)))
          rw [h ptc keySpec hpe (getProp o ptc)]
          exact ih _ _

/-- Fuel irrelevance: any fuel at least the spec size computes the same
summary, so `Validate` is the fixpoint of the recursion. -/
theorem validateFuel_congr : ∀ (f g : Nat) (s : ValidationSpec) (o : JSVal),
    specSize s ≤ f → specSize s ≤ g → validateFuel f s o = validateFuel g s o := by
  intro f
  induction f with
  | zero =>
    intro g s o hf hg
    have := specSize_pos s
    omega
  | succ f ih =>
    intro g s o hf hg
    rcases g with _ | g
    · have := specSize_pos s
      omega
    · rcases s with ⟨props, specOptions⟩
      rw [validateFuel, validateFuel]
      rcases ho : isObjectVal o with _ | _
      · simp only [ho, Bool.not_false, if_true]
      · simp only [ho, Bool.not_true, Bool.false_eq_true, if_false]
        rw [specSize] at hf hg
        apply validatePropsLoop_congr
        intro k sub hlk v
        have hsize := lookup_entrySize hlk
        rw [entrySize] at hsize
        exact ih g sub v (by omega) (by omega)

theorem Validate_fuel_stable (f : Nat) (s : ValidationSpec) (o : JSVal)
    (hf : specSize s ≤ f) : validateFuel f s o = Validate s o :=
  validateFuel_congr f (specSize s) s o hf (Nat.le_refl _)


theorem mergeNestedSummary_spec_witness :
    ((mergeParentW.errors ++ mergeChildW.errors.map
        (fun kv => ("child" ++ "." ++ kv.1, kv.2))).map Prod.fst).Nodup
    ∧ ((ValidationSummary.mergeNestedSummary mergeParentW "child" mergeChildW).missingProperties
          = mergeParentW.missingProperties
            ++ mergeChildW.missingProperties.map (fun v => "child" ++ "." ++ v)
      ∧ (ValidationSummary.mergeNestedSummary mergeParentW "child" mergeChildW).redundantProperties
          = mergeParentW.redundantProperties
            ++ mergeChildW.redundantProperties.map (fun v => "child" ++ "." ++ v)
      ∧ (ValidationSummary.mergeNestedSummary mergeParentW "child" mergeChildW).errors
          = mergeParentW.errors ++ mergeChildW.errors.map
              (fun kv => ("child" ++ "." ++ kv.1, kv.2))
      ∧ (∀ ck msgs, (ck, msgs) ∈ mergeChildW.errors →
          ("child" ++ "." ++ ck, msgs)
            ∈ (ValidationSummary.mergeNestedSummary mergeParentW "child" mergeChildW).errors)
      ∧ (∀ msgs, ("_self", msgs) ∈ mergeChildW.errors →
          ("child" ++ "._self", msgs)
            ∈ (ValidationSummary.mergeNestedSummary mergeParentW "child" mergeChildW).errors)
      ∧ (ValidationSummary.mergeNestedSummary mergeParentW "child" mergeChildW).valid
          = (mergeParentW.valid && mergeChildW.valid)
      ∧ (ValidationSummary.mergeNestedSummary mergeParentW "child" mergeChildW).errorCount
          = mergeParentW.errorCount + mergeChildW.errorCount) :=
  ⟨by decide, mergeNestedSummary_spec mergeParentW "child" mergeChildW (by decide)⟩

theorem evalRule_exception_spec_witness :
    (throwRuleW.1 (JSVal.num 1) "a" (JSVal.obj []) = Except.error (JSVal.str "boom")
      ∨ (throwRuleW.1 (JSVal.num 1) "a" (JSVal.obj []) = Except.ok false
          ∧ throwRuleW.2 (JSVal.num 1) "a" (JSVal.obj []) = Except.error (JSVal.str "boom")))
    ∧ (evalRule defaultValidationOptions (JSVal.obj []) "a" (JSVal.num 1) 0
          ValidationSummary.New throwRuleW
        = ValidationSummary.addErr "a"
            (defaultValidationOptions.errorHandler
              { key := "a", value := JSVal.num 1, ruleIndex := 0, error := JSVal.str "boom" })
            ValidationSummary.New
      ∧ (evalRule defaultValidationOptions (JSVal.obj []) "a" (JSVal.num 1) 0
          ValidationSummary.New throwRuleW).valid = false
      ∧ (evalRule defaultValidationOptions (JSVal.obj []) "a" (JSVal.num 1) 0
          ValidationSummary.New throwRuleW).errorCount = ValidationSummary.New.errorCount + 1
      ∧ ([throwRuleW] : List ValidationPropertyRule).foldl
            (evalRule defaultValidationOptions (JSVal.obj []) "a" (JSVal.num 1) 0)
            ValidationSummary.New
          = ([] : List ValidationPropertyRule).foldl
              (evalRule defaultValidationOptions (JSVal.obj []) "a" (JSVal.num 1) 0)
              (evalRule defaultValidationOptions (JSVal.obj []) "a" (JSVal.num 1) 0
                ValidationSummary.New throwRuleW)
      ∧ (∀ rule2 : ValidationPropertyRule,
          rule2.1 (JSVal.num 1) "a" (JSVal.obj []) = Except.ok false →
          rule2.2 (JSVal.num 1) "a" (JSVal.obj []) = Except.ok
              (defaultValidationOptions.errorHandler
                { key := "a", value := JSVal.num 1, ruleIndex := 0,
                  error := JSVal.str "boom" }) →
          evalRule defaultValidationOptions (JSVal.obj []) "a" (JSVal.num 1) 0
              ValidationSummary.New throwRuleW
            = evalRule defaultValidationOptions (JSVal.obj []) "a" (JSVal.num 1) 0
                ValidationSummary.New rule2)) :=
  ⟨Or.inl rfl,
    evalRule_exception_spec defaultValidationOptions (JSVal.obj []) "a" (JSVal.num 1) 0
      ValidationSummary.New throwRuleW (JSVal.str "boom") [] (Or.inl rfl)⟩

theorem validate_missing_block_witness :
    (validationPreCheckProps (requiredOnlyProps.map Prod.fst) (resolveOptions none)
        (JSVal.obj [])).missing ≠ []
    ∧ (Validate (ValidationSpec.mk requiredOnlyProps none) (JSVal.obj [])
          = validatePropsLoop (validateFuel (propsSize requiredOnlyProps)) requiredOnlyProps
              (resolveOptions none) (JSVal.obj []) 0
              (validationPreCheckProps (requiredOnlyProps.map Prod.fst) (resolveOptions none)
                (JSVal.obj [])).propsToCheck
              (recordPreCheck (resolveOptions none)
                (validationPreCheckProps (requiredOnlyProps.map Prod.fst) (resolveOptions none)
                  (JSVal.obj []))
                ValidationSummary.New)
      ∧ (recordPreCheck (resolveOptions none)
            (validationPreCheckProps (requiredOnlyProps.map Prod.fst) (resolveOptions none)
              (JSVal.obj []))
            ValidationSummary.New).missingProperties
          = (validationPreCheckProps (requiredOnlyProps.map Prod.fst) (resolveOptions none)
              (JSVal.obj [])).missing
      ∧ (recordPreCheck (resolveOptions none)
            (validationPreCheckProps (requiredOnlyProps.map Prod.fst) (resolveOptions none)
              (JSVal.obj []))
            ValidationSummary.New).valid = false
      ∧ (recordPreCheck (resolveOptions none)
            (validationPreCheckProps (requiredOnlyProps.map Prod.fst) (resolveOptions none)
              (JSVal.obj []))
            ValidationSummary.New).errorCount
          = 1 + (if (validationPreCheckProps (requiredOnlyProps.map Prod.fst)
                  (resolveOptions none) (JSVal.obj [])).redundant.isEmpty then 0
                else if (resolveOptions none).redundantIsError then 1 else 0)
      ∧ (∀ m ∈ (validationPreCheckProps (requiredOnlyProps.map Prod.fst) (resolveOptions none)
            (JSVal.obj [])).missing,
          m ∈ (Validate (ValidationSpec.mk requiredOnlyProps none)
                (JSVal.obj [])).missingProperties)
      ∧ (Validate (ValidationSpec.mk requiredOnlyProps none) (JSVal.obj [])).valid = false) :=
  ⟨by decide,
    validate_missing_block requiredOnlyProps none [] _ _ _ rfl rfl rfl (by decide)⟩

theorem validate_redundant_block_witness :
    (validationPreCheckProps (([] : List (String × SpecEntry)).map Prod.fst)
        (resolveOptions none) (JSVal.obj [("x", JSVal.num 1)])).redundant ≠ []
    ∧ (Validate (ValidationSpec.mk [] none) (JSVal.obj [("x", JSVal.num 1)])
          = validatePropsLoop (validateFuel (propsSize [])) []
              (resolveOptions none) (JSVal.obj [("x", JSVal.num 1)]) 0
              (validationPreCheckProps (([] : List (String × SpecEntry)).map Prod.fst)
                (resolveOptions none) (JSVal.obj [("x", JSVal.num 1)])).propsToCheck
              (recordPreCheck (resolveOptions none)
                (validationPreCheckProps (([] : List (String × SpecEntry)).map Prod.fst)
                  (resolveOptions none) (JSVal.obj [("x", JSVal.num 1)]))
                ValidationSummary.New)
      ∧ (recordPreCheck (resolveOptions none)
            (validationPreCheckProps (([] : List (String × SpecEntry)).map Prod.fst)
              (resolveOptions none) (JSVal.obj [("x", JSVal.num 1)]))
            ValidationSummary.New).redundantProperties
          = (validationPreCheckProps (([] : List (String × SpecEntry)).map Prod.fst)
              (resolveOptions none) (JSVal.obj [("x", JSVal.num 1)])).redundant
      ∧ (recordPreCheck (resolveOptions none)
            (validationPreCheckProps (([] : List (String × SpecEntry)).map Prod.fst)
              (resolveOptions none) (JSVal.obj [("x", JSVal.num 1)]))
            ValidationSummary.New).errorCount
          = (if (validationPreCheckProps (([] : List (String × SpecEntry)).map Prod.fst)
                  (resolveOptions none) (JSVal.obj [("x", JSVal.num 1)])).missing.isEmpty
              then 0 else 1)
            + (if (resolveOptions none).redundantIsError then 1 else 0)
      ∧ (∀ p ∈ (validationPreCheckProps (([] : List (String × SpecEntry)).map Prod.fst)
            (resolveOptions none) (JSVal.obj [("x", JSVal.num 1)])).redundant,
          p ∈ (Validate (ValidationSpec.mk [] none)
                (JSVal.obj [("x", JSVal.num 1)])).redundantProperties)
      ∧ defaultValidationOptions.redundantIsError = true) :=
  ⟨by decide,
    validate_redundant_block [] none [("x", JSVal.num 1)] _ _ _ rfl rfl rfl (by decide)⟩

theorem Extend_spec_witness :
    extProbeOptions.omitKeys = some ["name"]
    ∧ extProbeOptions.optionalProps = some ([] : List String)
    ∧ ((∀ k, (["name"] : List String).contains k = true →
          (Extend (ValidationSpec.mk extProbeProps (some extProbeOptions))
              (ValidationSpec.mk parentProbeProps
                (some { optionalProps := some ["area"] }))).props.lookup k = none)
      ∧ (∀ k e, (["name"] : List String).contains k = false → extProbeProps.lookup k = some e →
          (Extend (ValidationSpec.mk extProbeProps (some extProbeOptions))
              (ValidationSpec.mk parentProbeProps
                (some { optionalProps := some ["area"] }))).props.lookup k = some e)
      ∧ (∀ k, (["name"] : List String).contains k = false → extProbeProps.lookup k = none →
          (Extend (ValidationSpec.mk extProbeProps (some extProbeOptions))
              (ValidationSpec.mk parentProbeProps
                (some { optionalProps := some ["area"] }))).props.lookup k
            = parentProbeProps.lookup k)
      ∧ (∀ k e, extProbeProps.lookup k = some e →
          (imposeProps extProbeProps parentProbeProps).lookup k = some e)
      ∧ (∀ k, extProbeProps.lookup k = none →
          (imposeProps extProbeProps parentProbeProps).lookup k = parentProbeProps.lookup k)
      ∧ (∃ resultOptions,
          (Extend (ValidationSpec.mk extProbeProps (some extProbeOptions))
              (ValidationSpec.mk parentProbeProps
                (some { optionalProps := some ["area"] }))).options = some resultOptions
          ∧ resultOptions.optionalProps = some ([] : List String)
          ∧ resultOptions.omitKeys = none)) :=
  ⟨rfl, rfl,
    Extend_spec extProbeProps parentProbeProps extProbeOptions
      (some { optionalProps := some ["area"] }) ["name"] [] rfl rfl⟩

theorem validate_rules_only_on_existing_witness :
    WFVal maskProbeObj
    ∧ ((∀ (declared : List String) (options : PopulatedValidationOptions) (p : String),
          p ∈ (validationPreCheckProps declared options maskProbeObj).propsToCheck →
          existsVal (getProp maskProbeObj p) = true)
      ∧ Validate (maskSpec maskProbeQ maskProbeQm maskProbeSpec) maskProbeObj
          = Validate maskProbeSpec maskProbeObj) := by
  have hwf : WFVal maskProbeObj := by
    refine WFVal.obj [("a", JSVal.num 1)] (by decide) ?_
    intro kv hkv
    have hkv2 : kv = ("a", JSVal.num 1) := by simpa using hkv
    rw [hkv2]
    exact WFVal.num 1
  exact ⟨hwf,
    validate_rules_only_on_existing maskProbeQ maskProbeQm maskProbeSpec maskProbeObj hwf⟩
